import Mathlib

/-!
Verification of the command knowledge engine of vppctl-ai
(`src/vpp_cli_parser.py`, completion path of `src/main.py`).

The Python code is shallowly embedded: strings are Lean `String`
(a structure over `List Char`), SQLite query results are lists of
rows, `LIKE` is the case-insensitive wildcard matcher it is for
ASCII text, `=` on a `TEXT` column is exact (binary) equality, and
`ORDER BY path` is an insertion sort on the binary string order.
Python float division is modelled with `Rat`.
-/

namespace VppctlAI

/-- Whitespace test used by Python `str.split()` and `str.strip()`
(space, tab, carriage return, newline cover the command domain). -/
def isWS (c : Char) : Bool := c.isWhitespace

/-- Accumulator-based splitter over characters: groups maximal runs of
non-whitespace characters, dropping all whitespace.  `acc` holds the
current word reversed. -/
def wordsAux : List Char → List Char → List (List Char)
  | [], acc => if acc.isEmpty then [] else [acc.reverse]
  | c :: cs, acc =>
    if isWS c then
      if acc.isEmpty then wordsAux cs [] else acc.reverse :: wordsAux cs []
    else wordsAux cs (c :: acc)

/-- Python `s.split()`: split on whitespace runs, no empty tokens. -/
def pywords (s : String) : List String := (wordsAux s.data []).map (fun w => String.mk w)

/-- Python `' '.join(words)`. -/
def joinWords : List String → String
  | [] => ""
  | [w] => w
  | w :: ws => w ++ " " ++ joinWords ws

/-- Python `s.strip()`: drop leading and trailing whitespace. -/
def pyStrip (s : String) : String :=
  String.mk (((s.data.dropWhile isWS).reverse.dropWhile isWS).reverse)

/-- Python `s.lower()` (ASCII case folding, enough for this command domain). -/
def pyLower (s : String) : String := String.mk (s.data.map Char.toLower)

/-- Python `s.startswith(pre)`. -/
def pyStartswith (s pre : String) : Bool := pre.data.isPrefixOf s.data

/-- Python `needle in hay` on strings: contiguous-substring test. -/
def isSubstrL (needle : List Char) : List Char → Bool
  | [] => needle.isEmpty
  | c :: t => needle.isPrefixOf (c :: t) || isSubstrL needle (t)

/-- The characters of `hay` before the first occurrence of `sep`
(whole string when `sep` does not occur): Python `hay.split(sep)[0]`. -/
def beforeFirst (sep : List Char) : List Char → List Char
  | [] => []
  | c :: t => if sep.isPrefixOf (c :: t) then [] else c :: beforeFirst sep t

/-- The plural-to-singular table of `_normalize_command`, in source order. -/
def normalizations : List (String × String) :=
  [("interfaces", "interface"), ("routes", "route"), ("tunnels", "tunnel"),
   ("policies", "policy"), ("associations", "association"), ("addresses", "address")]

/-- Exact-key lookup in the plural table (`words[1] in normalizations`). -/
def exactFold (w : String) : Option String :=
  (normalizations.find? (fun p => p.1 = w)).map (fun p => p.2)

/-- The fallback loop of `_normalize_command`: first table entry whose
plural starts with the token, or whose truncation to the token length
is a prefix of the token. -/
def fallbackFold (w : String) : Option String :=
  (normalizations.find?
    (fun p => pyStartswith p.1 w || pyStartswith w (String.mk (p.1.data.take w.data.length)))).map
    (fun p => p.2)

/-- The second-token folding of `_normalize_command`: the exact table
first, then the fallback loop. -/
def foldSecond (w : String) : Option String :=
  match exactFold w with
  | some s => some s
  | none => fallbackFold w

/-- `VPPCommandDatabase._normalize_command`: when the command has at
least two tokens and the second one folds, rebuild the command with the
folded token; otherwise return the command unchanged. -/
def normalize_command (command : String) : String :=
  match pywords command with
  | w0 :: w1 :: rest =>
    match foldSecond w1 with
    | some s => joinWords (w0 :: s :: rest)
    | none => command
  | _ => command

/-! Tokenizer lemmas: splitting undoes joining on genuine tokens. -/

theorem data_append (a b : String) : (a ++ b).data = a.data ++ b.data := rfl

theorem mk_data (s : String) : String.mk s.data = s := rfl

theorem wordsAux_word (w : List Char) :
    ∀ (rest acc : List Char), (∀ c ∈ w, isWS c = false) →
      wordsAux (w ++ rest) acc = wordsAux rest (w.reverse ++ acc) := by
  induction w with
  | nil => intro rest acc _; simp
  | cons c w ih =>
    intro rest acc h
    have hc : isWS c = false := h c (List.mem_cons_self c w)
    have hw : ∀ x ∈ w, isWS x = false := fun x hx => h x (List.mem_cons_of_mem c hx)
    show wordsAux (c :: (w ++ rest)) acc = _
    rw [wordsAux, hc]
    simp only [Bool.false_eq_true, if_false]
    rw [ih rest (c :: acc) hw]
    simp [List.append_assoc]

theorem wordsAux_space (rest acc : List Char) (h : acc ≠ []) :
    wordsAux (' ' :: rest) acc = acc.reverse :: wordsAux rest [] := by
  rw [wordsAux]
  have : isWS ' ' = true := by decide
  rw [this]
  simp [List.isEmpty_iff, h]

theorem wordsAux_wordlike :
    ∀ (l acc : List Char), (∀ c ∈ acc, isWS c = false) →
      ∀ w ∈ wordsAux l acc, w ≠ [] ∧ ∀ c ∈ w, isWS c = false := by
  intro l
  induction l with
  | nil =>
    intro acc hacc w hw
    rw [wordsAux] at hw
    by_cases he : acc.isEmpty
    · simp [he] at hw
    · simp [he] at hw
      subst hw
      constructor
      · simp [List.isEmpty_iff] at he
        simpa using he
      · intro c hc
        exact hacc c (by simpa using hc)
  | cons c l ih =>
    intro acc hacc w hw
    rw [wordsAux] at hw
    by_cases hc : isWS c
    · rw [if_pos hc] at hw
      by_cases he : acc.isEmpty
      · rw [if_pos he] at hw
        exact ih [] (by simp) w hw
      · rw [if_neg he] at hw
        rcases List.mem_cons.mp hw with h1 | h1
        · subst h1
          constructor
          · simp [List.isEmpty_iff] at he
            simpa using he
          · intro x hx
            exact hacc x (by simpa using hx)
        · exact ih [] (by simp) w h1
    · rw [if_neg hc] at hw
      refine ih (c :: acc) ?_ w hw
      intro x hx
      rcases List.mem_cons.mp hx with h1 | h1
      · subst h1; simpa using hc
      · exact hacc x h1

theorem pywords_wordlike (s : String) :
    ∀ w ∈ pywords s, w.data ≠ [] ∧ ∀ c ∈ w.data, isWS c = false := by
  intro w hw
  rcases List.mem_map.mp hw with ⟨w', hw', rfl⟩
  exact wordsAux_wordlike s.data [] (by simp) w' hw'

theorem pywords_join (ws : List String)
    (h : ∀ w ∈ ws, w.data ≠ [] ∧ ∀ c ∈ w.data, isWS c = false) :
    pywords (joinWords ws) = ws := by
  induction ws with
  | nil => rfl
  | cons w ws ih =>
    have hw := h w (List.mem_cons_self w ws)
    have hws : ∀ x ∈ ws, x.data ≠ [] ∧ ∀ c ∈ x.data, isWS c = false :=
      fun x hx => h x (List.mem_cons_of_mem w hx)
    cases ws with
    | nil =>
      show pywords w = [w]
      unfold pywords
      have : w.data = w.data ++ [] := by simp
      rw [this, wordsAux_word w.data [] [] hw.2]
      rw [wordsAux]
      have hne : (w.data.reverse ++ []).isEmpty = false := by
        simp [List.isEmpty_iff, hw.1]
      rw [hne]
      simp [mk_data]
    | cons w' ws' =>
      show pywords (w ++ " " ++ joinWords (w' :: ws')) = w :: w' :: ws'
      unfold pywords
      have hdata : (w ++ " " ++ joinWords (w' :: ws')).data
          = w.data ++ (' ' :: (joinWords (w' :: ws')).data) := by
        rw [data_append, data_append]
        simp
      rw [hdata, wordsAux_word w.data _ [] hw.2,
        wordsAux_space _ _ (by simp [hw.1])]
      have ihh := ih hws
      unfold pywords at ihh
      simp only [List.map_cons, List.reverse_reverse, List.append_nil, mk_data, ihh]


/-- The possible outputs of the plural folding. -/
def singularList : List String :=
  ["interface", "route", "tunnel", "policy", "association", "address"]

theorem foldSecond_mem {w s : String} (h : foldSecond w = some s) : s ∈ singularList := by
  have htab : ∀ p ∈ normalizations, p.2 ∈ singularList := by decide
  unfold foldSecond at h
  cases he : exactFold w with
  | some t =>
    rw [he] at h
    cases h
    unfold exactFold at he
    rcases Option.map_eq_some'.mp he with ⟨p, hp, rfl⟩
    exact htab p (List.mem_of_find?_eq_some hp)
  | none =>
    rw [he] at h
    unfold fallbackFold at h
    rcases Option.map_eq_some'.mp h with ⟨p, hp, rfl⟩
    exact htab p (List.mem_of_find?_eq_some hp)

theorem foldSecond_fixed {s : String} (h : s ∈ singularList) :
    foldSecond s = some s ∨ foldSecond s = none := by
  fin_cases h <;> first | exact Or.inl (by decide) | exact Or.inr (by decide)

theorem singular_wordlike {s : String} (h : s ∈ singularList) :
    s.data ≠ [] ∧ ∀ c ∈ s.data, isWS c = false := by
  fin_cases h <;> exact ⟨by decide, by decide⟩

theorem normalize_command_short {cmd : String}
    (h : pywords cmd = [] ∨ ∃ w0, pywords cmd = [w0]) : normalize_command cmd = cmd := by
  rw [normalize_command]
  rcases h with h | ⟨w0, h⟩ <;> rw [h]

theorem normalize_command_none {cmd w0 w1 : String} {rest : List String}
    (h : pywords cmd = w0 :: w1 :: rest) (hf : foldSecond w1 = none) :
    normalize_command cmd = cmd := by
  rw [normalize_command, h]
  show (match foldSecond w1 with
    | some s => joinWords (w0 :: s :: rest)
    | none => cmd) = cmd
  rw [hf]

theorem normalize_command_some {cmd w0 w1 s : String} {rest : List String}
    (h : pywords cmd = w0 :: w1 :: rest) (hf : foldSecond w1 = some s) :
    normalize_command cmd = joinWords (w0 :: s :: rest) := by
  rw [normalize_command, h]
  show (match foldSecond w1 with
    | some s => joinWords (w0 :: s :: rest)
    | none => cmd) = joinWords (w0 :: s :: rest)
  rw [hf]

/-- C8: the normalizer is idempotent on every string, including inputs
resolved through the prefix-based fallback at token position 1. -/
theorem normalize_command_idem (cmd : String) :
    normalize_command (normalize_command cmd) = normalize_command cmd := by
  rcases hws : pywords cmd with _ | ⟨w0, _ | ⟨w1, rest⟩⟩
  · have h1 : normalize_command cmd = cmd := normalize_command_short (Or.inl hws)
    rw [h1]; exact h1
  · have h1 : normalize_command cmd = cmd := normalize_command_short (Or.inr ⟨w0, hws⟩)
    rw [h1]; exact h1
  · cases hf : foldSecond w1 with
    | none =>
      have h1 : normalize_command cmd = cmd := normalize_command_none hws hf
      rw [h1]; exact h1
    | some s =>
      have h1 : normalize_command cmd = joinWords (w0 :: s :: rest) :=
        normalize_command_some hws hf
      have hwl := pywords_wordlike cmd
      rw [hws] at hwl
      have hsmem : s ∈ singularList := foldSecond_mem hf
      have hall : ∀ w ∈ w0 :: s :: rest, w.data ≠ [] ∧ ∀ c ∈ w.data, isWS c = false := by
        intro w hw
        rcases List.mem_cons.mp hw with rfl | hw
        · exact hwl w (List.mem_cons_self _ _)
        rcases List.mem_cons.mp hw with rfl | hw
        · exact singular_wordlike hsmem
        · exact hwl w (List.mem_cons_of_mem _ (List.mem_cons_of_mem _ hw))
      have hround : pywords (joinWords (w0 :: s :: rest)) = w0 :: s :: rest :=
        pywords_join _ hall
      rw [h1]
      rcases foldSecond_fixed hsmem with h2 | h2
      · exact normalize_command_some hround h2
      · exact normalize_command_none hround h2

/-! The catalog and the SQLite query model. -/

/-- One row of the `commands` table (fields of the `VPPCommand` dataclass). -/
structure VPPCommand where
  path : String
  short_help : String
  function_name : String
  file_path : String
  category : String
deriving DecidableEq, Repr

/-- Lexicographic order on character lists by code point: the binary
collation SQLite uses to compare and `ORDER BY` TEXT values. -/
def lexLe : List Char → List Char → Bool
  | [], _ => true
  | _ :: _, [] => false
  | a :: as, b :: bs => if a < b then true else if b < a then false else lexLe as bs

def strLe (a b : String) : Bool := lexLe a.data b.data

def insertCmd (x : VPPCommand) : List VPPCommand → List VPPCommand
  | [] => [x]
  | y :: ys => if strLe x.path y.path then x :: y :: ys else y :: insertCmd x ys

/-- `ORDER BY path` on a result set. -/
def sortByPath : List VPPCommand → List VPPCommand
  | [] => []
  | x :: xs => insertCmd x (sortByPath xs)

def insertStr (x : String) : List String → List String
  | [] => [x]
  | y :: ys => if strLe x y then x :: y :: ys else y :: insertStr x ys

/-- Python `sorted` on strings. -/
def sortStrings : List String → List String
  | [] => []
  | x :: xs => insertStr x (sortStrings xs)

/-- Fuelled matcher for the SQLite `LIKE` operator: `%` matches any run
of characters, `_` any single character, other characters match up to
ASCII case.  Each step consumes at least one unit of pattern or text, so
`pattern.length + text.length + 1` units of fuel always suffice. -/
def likeMatchF : Nat → List Char → List Char → Bool
  | 0, _, _ => false
  | _ + 1, [], s => s.isEmpty
  | f + 1, p :: ps, s =>
    if p = '%' then
      likeMatchF f ps s ||
        (match s with
          | [] => false
          | _ :: s2 => likeMatchF f (p :: ps) s2)
    else
      match s with
      | [] => false
      | c :: s2 => (p == '_' || p.toLower == c.toLower) && likeMatchF f ps s2

/-- `text LIKE pattern` in SQLite (ASCII case-insensitive). -/
def likeMatch (pat s : List Char) : Bool := likeMatchF (pat.length + s.length + 1) pat s

/-- `SELECT ... FROM commands WHERE path LIKE ? ORDER BY path`. -/
def likeQuery (db : List VPPCommand) (pat : String) : List VPPCommand :=
  sortByPath (db.filter (fun c => likeMatch pat.data c.path.data))

/-- `SELECT ... FROM commands WHERE path = ?` with `fetchone`: the first
row whose path equals the query exactly (binary collation). -/
def exactLookup (db : List VPPCommand) (p : String) : Option VPPCommand :=
  db.find? (fun c => c.path == p)

/-- Fuelled scanner for `re.sub(r'<[^>]+>', '<placeholder>', s)`: at each
`<` with a nonempty body closed by `>`, emit the marker and resume after
the `>`; otherwise copy one character. -/
def subPlacF : Nat → List Char → List Char
  | 0, l => l
  | _ + 1, [] => []
  | f + 1, c :: rest =>
    if c = '<' then
      let body := rest.takeWhile (fun x => x ≠ '>')
      if body.isEmpty || body.length = rest.length then c :: subPlacF f rest
      else "<placeholder>".data ++ subPlacF f (rest.drop (body.length + 1))
    else c :: subPlacF f rest

def replacePlaceholders (s : String) : String := String.mk (subPlacF s.data.length s.data)

/-! The validation verdict: a record with one optional field per key the
Python dict may carry, so key presence is observable. -/

structure Verdict where
  valid : Bool
  path : Option String
  help : Option String
  category : Option String
  suggestions : Option (List String)
  reason : Option String
  normalized : Option Bool
  similar : Option Bool
deriving DecidableEq, Repr

def emptyVerdict : Verdict :=
  ⟨false, none, none, none, some [], some "Empty command", none, none⟩

def exactVerdict (row : VPPCommand) : Verdict :=
  ⟨true, some row.path, some row.short_help, some row.category, none, none, none, none⟩

/-- The verdict both the structural and the fuzzy branch return
(identical dict literals in the source). -/
def similarVerdict (row : VPPCommand) : Verdict :=
  ⟨true, some row.path, some row.short_help, some row.category, none, none, none, some true⟩

def structuralFailVerdict (sugg : List String) : Verdict :=
  ⟨false, none, none, none, some sugg,
    some "Command structure with placeholder not found in database", none, none⟩

def normalizedVerdict (row : VPPCommand) : Verdict :=
  ⟨true, some row.path, some row.short_help, some row.category, none, none, some true, none⟩

def noMatchVerdict (sugg : List String) : Verdict :=
  ⟨false, none, none, none, some sugg, none, none, none⟩

/-- Order-preserving deduplication with a seen set
(Python `list(dict.fromkeys(...))` and the extraction loop). -/
def dedupGo : List String → List String → List String
  | [], _ => []
  | x :: xs, seen => if seen.contains x then dedupGo xs seen else x :: dedupGo xs (x :: seen)

def dedupKeepOrder (l : List String) : List String := dedupGo l []

/-- `VPPCommandDatabase._commands_similar`: equal lowered token lists,
or one joined string a substring of the other, or Jaccard similarity of
the token sets above one half. -/
def commandsSimilar (cmd1 cmd2 : String) : Bool :=
  let words1 := pywords (pyLower cmd1)
  let words2 := pywords (pyLower cmd2)
  if words1 = words2 then true
  else
    let cmd1s := joinWords words1
    let cmd2s := joinWords words2
    if isSubstrL cmd1s.data cmd2s.data || isSubstrL cmd2s.data cmd1s.data then true
    else
      let inter := (dedupKeepOrder words1).filter (fun w => words2.contains w)
      let union := dedupKeepOrder (words1 ++ words2)
      let similarity : ℚ :=
        if union.length ≠ 0 then (inter.length : ℚ) / (union.length : ℚ) else 0
      decide (similarity > 1 / 2)

/-- `VPPCommandDatabase._find_similar_commands`: per token of length
above 2, up to 5 substring matches, deduplicated, truncated to 5. -/
def find_similar_commands (db : List VPPCommand) (command : String) : List String :=
  let words := pywords (pyLower command)
  let suggestions := words.foldl (fun acc w =>
    if w.data.length > 2 then
      acc ++ (((likeQuery db ("%" ++ w ++ "%")).map (fun c => c.path)).take 5)
    else acc) []
  (dedupKeepOrder suggestions).take 5

/-- The fuzzy step of `validate_command`: candidates whose path starts
(LIKE-style) with the first raw token, in path order; accept the first
that is similar and whose token count is at least the input token count
minus one.  `none` when the loop accepts nothing. -/
def fuzzyStep (db : List VPPCommand) (command : String) : Option Verdict :=
  match pywords command with
  | [] => none
  | first_word :: _ =>
    ((likeQuery db (first_word ++ "%")).find? (fun m =>
        commandsSimilar command m.path &&
          decide (((pywords m.path).length : Int) ≥ ((pywords command).length : Int) - 1))).map
      (fun m => similarVerdict m)

/-- The acceptance test of the placeholder branch: the candidate path
starts with the two-token base (case-sensitively), word counts differ by
at most one, and the candidate has exactly the input word count or one
less. -/
def structAccept (command base_cmd : String) (m : VPPCommand) : Bool :=
  pyStartswith m.path base_cmd &&
    decide ((((pywords m.path).length : Int) - ((pywords command).length : Int)).natAbs ≤ 1) &&
    (decide (((pywords m.path).length : Int) = ((pywords command).length : Int)) ||
      decide (((pywords m.path).length : Int) = ((pywords command).length : Int) - 1))

/-- The placeholder branch after the two-token base is formed: first
accepted candidate of the prefix query, else invalid with up to 3
same-prefix suggestions. -/
def structuralSearch (db : List VPPCommand) (command base_cmd : String) : Verdict :=
  let ms := likeQuery db (base_cmd ++ "%")
  match ms.find? (structAccept command base_cmd) with
  | some m => similarVerdict m
  | none => structuralFailVerdict ((ms.map (fun c => c.path)).take 3)

/-- The placeholder branch of `validate_command`: `none` models falling
through (base empty or shorter than two tokens, no `return` executed). -/
def placeholderStep (db : List VPPCommand) (command cwp : String) : Option Verdict :=
  let command_base := pyStrip (String.mk (beforeFirst "<placeholder>".data cwp.data))
  match pywords command_base with
  | p0 :: p1 :: _ => some (structuralSearch db command (p0 ++ " " ++ p1))
  | _ => none

/-- Steps 4 to 6 of `validate_command`: normalized exact lookup, fuzzy
step, generic suggestions. -/
def postPlaceholder (db : List VPPCommand) (command : String) : Verdict :=
  match exactLookup db (normalize_command command) with
  | some row => normalizedVerdict row
  | none =>
    match fuzzyStep db command with
    | some v => v
    | none => noMatchVerdict (find_similar_commands db command)

/-- `VPPCommandDatabase.validate_command`. -/
def validate_command (db : List VPPCommand) (cmd0 : String) : Verdict :=
  let command := pyStrip cmd0
  if command = "" then emptyVerdict
  else
    match exactLookup db command with
    | some row => exactVerdict row
    | none =>
      let cwp := replacePlaceholders command
      if isSubstrL "<placeholder>".data cwp.data || command.data.contains '<' then
        match placeholderStep db command cwp with
        | some v => v
        | none => postPlaceholder db command
      else postPlaceholder db command

/-! Completion (`main.py` `get_vpp_completions` database path and
`VPPCommandDatabase.get_command_completions`). -/

/-- `get_command_completions`: paths with the given prefix, path order,
first 20. -/
def get_command_completions (db : List VPPCommand) (pc : String) : List String :=
  ((likeQuery db (pc ++ "%")).map (fun c => c.path)).take 20

/-- The inline abbreviation expansion of the completion path. -/
def completionAbbrev (p : String) : String :=
  if p = "int" then "interface" else if p = "addr" then "address" else p

/-- `VPPctlAgent.get_vpp_completions` with the live dataplane query
(external I/O) producing no output, so the command-database branch runs:
next tokens of catalog paths extending the partial command, else the
fallback over raw prefix completions. -/
def get_vpp_completions (db : List VPPCommand) (pc : String) : List String :=
  match pywords (pyStrip pc) with
  | [] => []
  | p0 :: prest =>
    let parts := p0 :: prest
    let normalized_parts := parts.map completionAbbrev
    let pat1 := joinWords parts ++ " %"
    let pat2 := joinWords normalized_parts ++ " %"
    let matching_commands := dedupKeepOrder
      ((((likeQuery db pat1).map (fun c => c.path)).take 50) ++
        (((likeQuery db pat2).map (fun c => c.path)).take 50))
    let target_len := normalized_parts.length
    let collected := matching_commands.foldl (fun acc cmd =>
      let cmd_parts := pywords cmd
      if cmd_parts.length > target_len then
        let next_token := cmd_parts.getD target_len ""
        if 0 < parts.length ∧ parts.length = normalized_parts.length then
          let last_part := parts.getLastD ""
          if last_part = "" ∨ pyStartswith next_token last_part = true ∨
              last_part ∈ ["int", "interface", "addr", "address"] then
            acc ++ [next_token]
          else acc
        else acc ++ [next_token]
      else acc) []
    let completions := sortStrings (dedupKeepOrder collected)
    if completions ≠ [] then completions
    else
      let db_completions := get_command_completions db pc
      let parts2 := pywords pc
      let next2 := (db_completions.take 30).foldl (fun acc comp =>
        let comp_parts := pywords comp
        if comp_parts.length > parts2.length then acc ++ [comp_parts.getD parts2.length ""]
        else acc) []
      if next2 ≠ [] then sortStrings (dedupKeepOrder next2) else []

/-! The hallucination scanner (`VPPCommandValidator`). -/

/-- One entry of the `KNOWN_HALLUCINATIONS` table together with the
matched pattern (the dict built by `_check_known_hallucination`; its
constant `is_hallucination: True` field is omitted). -/
structure HallucinationHit where
  pat : String
  correct : String
  why : String
deriving DecidableEq, Repr

/-- `∃` over start positions of a regex search. -/
def existsSuffix (p : List Char → Bool) : List Char → Bool
  | [] => p []
  | c :: t => p (c :: t) || existsSuffix p t

/-- Search for `trace add <interface[^>]*>`: the literal head followed
by a closing angle bracket somewhere after it. -/
def matchTraceIface (s : List Char) : Bool :=
  existsSuffix (fun rest =>
    "trace add <interface".data.isPrefixOf rest &&
      (rest.drop "trace add <interface".data.length).contains '>') s

/-- The newline character. -/
def nlChar : Char := Char.ofNat 10

/-- Search for `trace add.*interface`: the literal head followed by
`interface` with no intervening newline (`.` excludes newlines). -/
def matchTraceAny (s : List Char) : Bool :=
  existsSuffix (fun rest =>
    "trace add".data.isPrefixOf rest &&
      isSubstrL "interface".data ((rest.drop 9).takeWhile (fun c => c ≠ nlChar))) s

/-- `VPPCommandValidator._check_known_hallucination`: the five table
patterns tried in source order, case-insensitively. -/
def check_known_hallucination (cmd : String) : Option HallucinationHit :=
  let s := (pyLower cmd).data
  if matchTraceIface s then
    some ⟨"trace add <interface[^>]*>", "trace add <input-graph-node>",
      "trace add requires input-graph-node, not interface name"⟩
  else if isSubstrL "trace add <interface_name>".data s then
    some ⟨"trace add <interface_name>", "trace add <input-graph-node>",
      "trace add requires input-graph-node, not interface name"⟩
  else if matchTraceAny s then
    some ⟨"trace add.*interface", "trace add <input-graph-node>",
      "trace add requires input-graph-node, not interface name"⟩
  else if isSubstrL "show trace max <number".data s then
    some ⟨"show trace max <number", "show trace [max COUNT]",
      "show trace max takes COUNT directly, not <number_of_packets>"⟩
  else if isSubstrL "show trace detail".data s then
    some ⟨"show trace detail", "show trace [max COUNT]",
      "show trace does not have a \"detail\" option"⟩
  else none

/-! Candidate extraction (`_extract_commands_from_text`). -/

/-- The backquote character, code point 96. -/
def btick : Char := Char.ofNat 96

/-- Fuelled scanner for `re.findall` of a backquoted nonempty chunk. -/
def backtickF : Nat → List Char → List (List Char)
  | 0, _ => []
  | _ + 1, [] => []
  | f + 1, c :: rest =>
    if c = btick then
      let body := rest.takeWhile (fun x => x ≠ btick)
      if body.length = rest.length ∨ body.isEmpty = true then backtickF f rest
      else body :: backtickF f (rest.drop (body.length + 1))
    else backtickF f rest

/-- Drop a leading `vppctl ` and re-strip. -/
def stripVppctl (cmd : String) : String :=
  if pyStartswith cmd "vppctl " then pyStrip (String.mk (cmd.data.drop 7)) else cmd

/-- The backquoted candidates of the extraction. -/
def tickCommands (text : String) : List String :=
  (backtickF text.data.length text.data).foldr (fun raw acc =>
    let c := stripVppctl (pyStrip (String.mk raw))
    if c ≠ "" ∧ 1 ≤ (pywords c).length then c :: acc else acc) []

/-- Python `text.split(chr(10))`, keeping empty lines. -/
def splitNl : List Char → List (List Char)
  | [] => [[]]
  | c :: t =>
    if c = nlChar then [] :: splitNl t
    else
      match splitNl t with
      | h :: r => (c :: h) :: r
      | [] => [[c]]

def pyLines (text : String) : List String := (splitNl text.data).map (fun l => String.mk l)

def listVerbs : List String :=
  ["show", "set", "create", "delete", "ip", "lcp", "trace", "pcap", "clear", "save"]

def isMarkerChar (c : Char) : Bool := c.isDigit || c = '.' || c = '-' || c = '*'

/-- The regex gate of the list-item pass: one marker character, optional
whitespace, then an administrative verb, on the lowered line. -/
def lineIsListItem (line : String) : Bool :=
  match (pyLower line).data with
  | [] => false
  | c :: rest => isMarkerChar c && listVerbs.any (fun v => v.data.isPrefixOf (rest.dropWhile isWS))

/-- The line after the marker character and following whitespace. -/
def afterMarker (line : String) : String :=
  match line.data with
  | [] => ""
  | _ :: rest => String.mk (rest.dropWhile isWS)

def cutAt (sep : String) (s : String) : String := String.mk (beforeFirst sep.data s.data)

/-- The list-item candidates of the extraction. -/
def listItemCommands (text : String) : List String :=
  (pyLines text).foldr (fun line0 acc =>
    let line := pyStrip line0
    if lineIsListItem line then
      let cmd_part := stripVppctl (pyStrip (afterMarker line))
      let cmd := pyStrip (cutAt " This " (cutAt " for " (cutAt " to " (cutAt " - " cmd_part))))
      let cmd_base := replacePlaceholders cmd
      if cmd_base ≠ "" ∧ 1 ≤ (pywords cmd_base).length then cmd_base :: acc else acc
    else acc) []

def standaloneStarts : List String := ["show ", "set ", "create ", "delete ", "ip ", "lcp "]

def genericWords : List String := ["the", "this", "these", "command", "use"]

/-- The standalone-line candidates of the extraction: first two tokens
of stripped lines that begin with an administrative verb and a space,
have at least two tokens, and contain no generic reference word. -/
def standaloneCommands (text : String) : List String :=
  (pyLines text).foldr (fun line0 acc =>
    let line := pyStrip line0
    if (standaloneStarts.any (fun p => pyStartswith line p)) &&
        decide (2 ≤ (pywords line).length) &&
        !(genericWords.any (fun w => isSubstrL w.data (pyLower line).data)) then
      match pywords line with
      | t0 :: t1 :: _ => (t0 ++ " " ++ t1) :: acc
      | _ => acc
    else acc) []

/-- The final loop of the extraction: strip again, drop empties and
duplicates, preserve first-occurrence order. -/
def finalDedup : List String → List String → List String
  | [], _ => []
  | c0 :: rest, seen =>
    let c := pyStrip c0
    if c ≠ "" ∧ seen.contains c = false ∧ 1 ≤ (pywords c).length then
      c :: finalDedup rest (c :: seen)
    else finalDedup rest seen

/-- `VPPCommandValidator._extract_commands_from_text`. -/
def extract_commands_from_text (text : String) : List String :=
  finalDedup (tickCommands text ++ listItemCommands text ++ standaloneCommands text) []

/-- The per-candidate loop of `validate_ai_response`, returning
(valid, invalid, suggestions, known hallucinations). -/
def scanLoop (db : List VPPCommand) :
    List String →
      List String × List String × List (String × List String) × List (String × HallucinationHit)
  | [] => ([], [], [], [])
  | cmd :: rest =>
    let r := scanLoop db rest
    match check_known_hallucination cmd with
    | some hit => (r.1, cmd :: r.2.1, (cmd, [hit.correct]) :: r.2.2.1, (cmd, hit) :: r.2.2.2)
    | none =>
      let v := validate_command db cmd
      if v.valid then (cmd :: r.1, r.2.1, r.2.2.1, r.2.2.2)
      else
        (r.1, cmd :: r.2.1,
          (match v.suggestions with
            | some (s :: ss) => (cmd, s :: ss) :: r.2.2.1
            | _ => r.2.2.1),
          r.2.2.2)

/-- The dict `validate_ai_response` returns. -/
structure ScanReport where
  valid_commands : List String
  invalid_commands : List String
  suggestions : List (String × List String)
  known_hallucinations : List (String × HallucinationHit)
  confidence : Rat
deriving DecidableEq, Repr

/-- `VPPCommandValidator.validate_ai_response`. -/
def validate_ai_response (db : List VPPCommand) (text : String) : ScanReport :=
  let potential := extract_commands_from_text text
  let r := scanLoop db potential
  ⟨r.1, r.2.1, r.2.2.1, r.2.2.2,
    if potential ≠ [] then (r.1.length : Rat) / (potential.length : Rat) else 1⟩

/-! Helper lemmas on the query model. -/

theorem mem_insertCmd {a x : VPPCommand} {l : List VPPCommand} :
    a ∈ insertCmd x l ↔ a = x ∨ a ∈ l := by
  induction l with
  | nil => simp [insertCmd]
  | cons y ys ih =>
    rw [insertCmd]
    by_cases h : strLe x.path y.path
    · simp [h]
    · simp [h, ih]
      tauto

theorem mem_sortByPath {a : VPPCommand} {l : List VPPCommand} :
    a ∈ sortByPath l ↔ a ∈ l := by
  induction l with
  | nil => simp [sortByPath]
  | cons x xs ih => rw [sortByPath]; simp [mem_insertCmd, ih]

theorem mem_likeQuery {m : VPPCommand} {db : List VPPCommand} {pat : String}
    (h : m ∈ likeQuery db pat) : m ∈ db ∧ likeMatch pat.data m.path.data = true := by
  rw [likeQuery] at h
  have := mem_sortByPath.mp h
  exact ⟨(List.mem_filter.mp this).1, (List.mem_filter.mp this).2⟩

theorem likeQuery_mem {m : VPPCommand} {db : List VPPCommand} {pat : String}
    (h1 : m ∈ db) (h2 : likeMatch pat.data m.path.data = true) : m ∈ likeQuery db pat := by
  rw [likeQuery]
  exact mem_sortByPath.mpr (List.mem_filter.mpr ⟨h1, h2⟩)

theorem exactLookup_some {db : List VPPCommand} {q : String} {c : VPPCommand}
    (h : exactLookup db q = some c) : c ∈ db ∧ c.path = q := by
  refine ⟨List.mem_of_find?_eq_some h, ?_⟩
  have := List.find?_some h
  simpa using this

theorem exactLookup_isSome {db : List VPPCommand} {q : String} :
    (exactLookup db q).isSome ↔ ∃ s ∈ db, s.path = q := by
  rw [exactLookup, List.find?_isSome]
  constructor
  · rintro ⟨x, hx, hp⟩
    exact ⟨x, hx, by simpa using hp⟩
  · rintro ⟨x, hx, hp⟩
    exact ⟨x, hx, by simpa using hp⟩

theorem exactLookup_self {db : List VPPCommand} {s : VPPCommand} (h1 : s ∈ db)
    (h2 : (db.map (fun c => c.path)).Nodup) : exactLookup db s.path = some s := by
  have hsome : (exactLookup db s.path).isSome :=
    exactLookup_isSome.mpr ⟨s, h1, rfl⟩
  rcases Option.isSome_iff_exists.mp hsome with ⟨c, hc⟩
  rcases exactLookup_some hc with ⟨hmem, hpath⟩
  have : c = s := List.inj_on_of_nodup_map h2 hmem h1 hpath
  rw [hc, this]

/-- C7 (amended): exact lookup succeeds precisely when the catalog holds
a signature whose path equals the queried string exactly, under the
case-sensitive binary collation of the `path = ?` comparison; any hit is
a member of the catalog whose path is the query itself, so a proper
token-sequence prefix never exact-matches. -/
theorem exactLookup_spec (db : List VPPCommand) (q : String) :
    ((exactLookup db q).isSome = true ↔ ∃ s ∈ db, s.path = q) ∧
      ∀ c, exactLookup db q = some c → c ∈ db ∧ c.path = q := by
  constructor
  · simpa using exactLookup_isSome
  · intro c hc
    exact exactLookup_some hc

/-- Case-insensitive token-sequence equality, written from the words of
the claim: tokenize, fold character case, compare the sequences. -/
def specTokensEqCI (a b : String) : Bool :=
  decide ((pywords a).map pyLower = (pywords b).map pyLower)

/-- A concrete catalog signature reused by several developments. -/
def sigShowInterface : VPPCommand :=
  ⟨"show interface", "display interface information", "show_sw_interfaces_fn",
    "vnet/interface_cli.c", "interfaces"⟩

/-- C7 (counterexample): the query differs from the stored path only in
letter case, so it is equal under case-insensitive token-sequence
comparison, yet exact lookup misses. -/
theorem exactLookup_case_cex :
    specTokensEqCI "SHOW INTERFACE" "show interface" = true ∧
      sigShowInterface.path = "show interface" ∧
      exactLookup [sigShowInterface] "SHOW INTERFACE" = none := by
  refine ⟨by decide, rfl, by decide⟩

/-- C7 (witness): the amended characterization applied to a concrete
catalog and query. -/
theorem exactLookup_spec_witness :
    (exactLookup [sigShowInterface] "show interface").isSome = true := by
  exact (exactLookup_spec [sigShowInterface] "show interface").1.mpr
    ⟨sigShowInterface, by decide, rfl⟩

/-- C1: validating the stored path of any catalog signature returns the
exact-match verdict carrying that signature, provided paths are unique
in the catalog and the stored path is a nonempty stripped string (both
guaranteed by the parser, which strips paths, and by the UNIQUE
constraint of the table). -/
theorem validate_command_path_exact (db : List VPPCommand) (s : VPPCommand)
    (h1 : s ∈ db) (h2 : (db.map (fun c => c.path)).Nodup)
    (h3 : pyStrip s.path = s.path) (h4 : s.path ≠ "") :
    validate_command db s.path = exactVerdict s := by
  rw [validate_command]
  simp only [h3]
  rw [if_neg h4, exactLookup_self h1 h2]

/-- C1 (witness): the exact-match theorem applied to a one-row catalog. -/
theorem validate_command_path_exact_witness :
    validate_command [sigShowInterface] "show interface" = exactVerdict sigShowInterface := by
  have h := validate_command_path_exact [sigShowInterface] sigShowInterface
    (by decide) (by decide) (by decide) (by decide)
  exact h

theorem fuzzyStep_accept_core (db : List VPPCommand) (cmd : String) (v : Verdict)
    (h : fuzzyStep db cmd = some v) :
    ∃ m ∈ db, v = similarVerdict m ∧ commandsSimilar cmd m.path = true ∧
      ((pywords m.path).length : Int) ≥ ((pywords cmd).length : Int) - 1 := by
  rw [fuzzyStep] at h
  rcases hws : pywords cmd with _ | ⟨w0, wrest⟩
  · rw [hws] at h
    exact absurd h (by simp)
  · rw [hws] at h
    rcases Option.map_eq_some'.mp h with ⟨m, hm, rfl⟩
    have hpred := List.find?_some hm
    have hmem := List.mem_of_find?_eq_some hm
    simp only [Bool.and_eq_true] at hpred
    obtain ⟨hsim, hlen⟩ := hpred
    refine ⟨m, (mem_likeQuery hmem).1, rfl, hsim, ?_⟩
    exact of_decide_eq_true hlen

/-- C2 (amended): any signature the similarity step accepts as a Fuzzy
match qualifies per the ranker rule (`_commands_similar`: Jaccard above
one half, or substring, or equality), and its token count is at least
the input token count minus one — the signature may be at most one token
shorter than the input, but may be arbitrarily longer. -/
theorem fuzzyStep_accept_spec (db : List VPPCommand) (cmd : String) (v : Verdict)
    (h : fuzzyStep db cmd = some v) :
    ∃ m ∈ db, v = similarVerdict m ∧ commandsSimilar cmd m.path = true ∧
      ((pywords m.path).length : Int) ≥ ((pywords cmd).length : Int) - 1 :=
  fuzzyStep_accept_core db cmd v h

/-- A concrete signature three tokens longer than the probe input. -/
def sigShowXYZW : VPPCommand := ⟨"show x y z w", "five token path", "fn", "file.c", "other"⟩

/-- C2 (counterexample): the fuzzy step accepts a signature whose token
count exceeds the input token count by three, refuting the claimed
two-sided tolerance of one. -/
theorem fuzzyStep_length_cex :
    validate_command [sigShowXYZW] "show x" = similarVerdict sigShowXYZW ∧
      (pywords "show x y z w").length = 5 ∧ (pywords "show x").length = 2 := by
  refine ⟨by decide, by decide, by decide⟩

/-- A concrete signature one token longer than the probe input. -/
def sigShowXY : VPPCommand := ⟨"show x y", "three token path", "fn", "file.c", "other"⟩

/-- C2 (witness): the amended fuzzy-acceptance theorem applied at a
concrete accepting input. -/
theorem fuzzyStep_accept_spec_witness :
    ∃ m ∈ [sigShowXY], similarVerdict sigShowXY = similarVerdict m ∧
      commandsSimilar "show x" m.path = true ∧
      ((pywords m.path).length : Int) ≥ ((pywords "show x").length : Int) - 1 := by
  exact fuzzyStep_accept_spec [sigShowXY] "show x" (similarVerdict sigShowXY) (by decide)

/-- A signature whose path extends the probe first word without a token
boundary. -/
def sigShowmeX : VPPCommand := ⟨"showme x", "no boundary", "fn", "file.c", "other"⟩

/-- C6 (divergence witnessed on the code): with catalog path `showme x`,
validating `show` is accepted by the similarity step — the candidate
prefilter `path LIKE 'show%'` has no token boundary — although the
accepted first token `showme` differs from the input first token
`show`. -/
theorem fuzzy_first_word_divergence :
    validate_command [sigShowmeX] "show" = similarVerdict sigShowmeX ∧
      (pywords "showme x").headD "" = "showme" ∧ (pywords "show").headD "" = "show" := by
  refine ⟨by decide, by decide, by decide⟩

/-! The `LIKE` matcher accepts every literal prefix match. -/

theorem likeMatchF_succ_cons (f : Nat) (p : Char) (ps s : List Char) :
    likeMatchF (f + 1) (p :: ps) s =
      if p = '%' then
        likeMatchF f ps s ||
          (match s with | [] => false | _ :: s2 => likeMatchF f (p :: ps) s2)
      else
        match s with
        | [] => false
        | c :: s2 => (p == '_' || p.toLower == c.toLower) && likeMatchF f ps s2 := by
  cases s <;> rfl

theorem likeStar_true : ∀ (t : List Char) (f : Nat), t.length + 2 ≤ f →
    likeMatchF f [Char.ofNat 37] t = true := by
  intro t
  induction t with
  | nil =>
    intro f h
    obtain ⟨f2, rfl⟩ : ∃ f2, f = f2 + 2 := ⟨f - 2, by omega⟩
    rw [likeMatchF_succ_cons, if_pos (by decide), likeMatchF]
    simp
  | cons c t ih =>
    intro f h
    rw [List.length_cons] at h
    obtain ⟨f1, rfl⟩ : ∃ f1, f = f1 + 1 := ⟨f - 1, by omega⟩
    rw [likeMatchF_succ_cons, if_pos (by decide)]
    have := ih f1 (by omega)
    simp [this]

theorem percent_data : ("%".data : List Char) = [Char.ofNat 37] := by decide

theorem likeF_lit : ∀ (p t : List Char) (f : Nat), 2 * p.length + t.length + 2 ≤ f →
    likeMatchF f (p ++ [Char.ofNat 37]) (p ++ t) = true := by
  intro p
  induction p with
  | nil =>
    intro t f h
    simpa using likeStar_true t f (by simpa using h)
  | cons c p ih =>
    intro t f h
    rw [List.length_cons] at h
    obtain ⟨f1, rfl⟩ : ∃ f1, f = f1 + 1 := ⟨f - 1, by omega⟩
    simp only [List.cons_append]
    rw [likeMatchF_succ_cons]
    by_cases hc : c = '%'
    · rw [if_pos hc]
      obtain ⟨f2, rfl⟩ : ∃ f2, f1 = f2 + 1 := ⟨f1 - 1, by omega⟩
      have hrec : likeMatchF (f2 + 1) (c :: (p ++ [Char.ofNat 37])) (p ++ t) = true := by
        rw [likeMatchF_succ_cons, if_pos hc]
        have := ih t f2 (by omega)
        simp [this]
      simp [hrec]
    · rw [if_neg hc]
      have hlow : (c == '_' || c.toLower == c.toLower) = true := by simp
      have := ih t f1 (by omega)
      simp [hlow, this]

theorem likeMatch_of_startswith {path base : String} (h : pyStartswith path base = true) :
    likeMatch (base ++ "%").data path.data = true := by
  rw [pyStartswith] at h
  rcases List.isPrefixOf_iff_prefix.mp h with ⟨t, ht⟩
  rw [likeMatch, data_append, percent_data, ← ht]
  apply likeF_lit
  simp [List.length_append]
  omega

/-! The structural (placeholder) branch. -/

theorem structAccept_iff (command base_cmd : String) (m : VPPCommand) :
    structAccept command base_cmd m = true ↔
      pyStartswith m.path base_cmd = true ∧
        ((pywords m.path).length = (pywords command).length ∨
          (pywords m.path).length + 1 = (pywords command).length) := by
  simp only [structAccept, Bool.and_eq_true, Bool.or_eq_true, decide_eq_true_eq]
  constructor
  · rintro ⟨⟨hs, _⟩, hd⟩
    exact ⟨hs, by omega⟩
  · rintro ⟨hs, hd⟩
    exact ⟨⟨hs, by omega⟩, by omega⟩

theorem structuralSearch_spec (db : List VPPCommand) (command base_cmd : String) :
    ((structuralSearch db command base_cmd).valid = true ↔
      ∃ m ∈ db, pyStartswith m.path base_cmd = true ∧
        ((pywords m.path).length = (pywords command).length ∨
          (pywords m.path).length + 1 = (pywords command).length)) ∧
    ((structuralSearch db command base_cmd).valid = false →
      structuralSearch db command base_cmd = structuralFailVerdict
        (((likeQuery db (base_cmd ++ "%")).map (fun c => c.path)).take 3)) := by
  simp only [structuralSearch]
  cases hf : (likeQuery db (base_cmd ++ "%")).find? (structAccept command base_cmd) with
  | some m =>
    refine ⟨⟨fun _ => ?_, fun _ => by simp [similarVerdict]⟩, fun hvalid => ?_⟩
    · have hp := List.find?_some hf
      have hmem := List.mem_of_find?_eq_some hf
      rcases (structAccept_iff command base_cmd m).mp hp with ⟨hs, hd⟩
      exact ⟨m, (mem_likeQuery hmem).1, hs, hd⟩
    · exact absurd hvalid (by simp [similarVerdict])
  | none =>
    refine ⟨⟨fun hvalid => ?_, ?_⟩, fun _ => rfl⟩
    · exact absurd hvalid (by simp [structuralFailVerdict])
    · rintro ⟨m, hm, hs, hd⟩
      have hacc : structAccept command base_cmd m = true :=
        (structAccept_iff command base_cmd m).mpr ⟨hs, hd⟩
      have hmem : m ∈ likeQuery db (base_cmd ++ "%") :=
        likeQuery_mem hm (likeMatch_of_startswith hs)
      have := List.find?_eq_none.mp hf m hmem
      simp [hacc] at this

theorem validate_placeholder_branch (db : List VPPCommand) (command p0 p1 : String)
    (prest : List String)
    (hstrip : pyStrip command = command) (hne : command ≠ "")
    (hph : (isSubstrL "<placeholder>".data (replacePlaceholders command).data
      || command.data.contains '<') = true)
    (hexact : exactLookup db command = none)
    (hbase : pywords (pyStrip (String.mk
      (beforeFirst "<placeholder>".data (replacePlaceholders command).data))) = p0 :: p1 :: prest) :
    validate_command db command = structuralSearch db command (p0 ++ " " ++ p1) := by
  have hps : placeholderStep db command (replacePlaceholders command)
      = some (structuralSearch db command (p0 ++ " " ++ p1)) := by
    rw [placeholderStep, hbase]
  rw [validate_command]
  simp only [hstrip]
  rw [if_neg hne, hexact]
  simp only [hph, if_true, hps]

/-- C3 (amended): for an input containing placeholder markup whose
exact lookup fails and whose pre-placeholder base has at least two
tokens, the structural matcher accepts some candidate iff the catalog
holds a signature whose path starts (case-sensitive string prefix) with
the first two base tokens and whose token count equals the input token
count or is exactly one less — the signature may be one token shorter
than the input but never longer; on failure the verdict is invalid with
the first three same-prefix candidates in path order and reason
`Command structure with placeholder not found in database`. -/
theorem structural_match_spec (db : List VPPCommand) (command p0 p1 : String)
    (prest : List String)
    (hstrip : pyStrip command = command) (hne : command ≠ "")
    (hph : (isSubstrL "<placeholder>".data (replacePlaceholders command).data
      || command.data.contains '<') = true)
    (hexact : exactLookup db command = none)
    (hbase : pywords (pyStrip (String.mk
      (beforeFirst "<placeholder>".data (replacePlaceholders command).data))) = p0 :: p1 :: prest) :
    ((validate_command db command).valid = true ↔
      ∃ m ∈ db, pyStartswith m.path (p0 ++ " " ++ p1) = true ∧
        ((pywords m.path).length = (pywords command).length ∨
          (pywords m.path).length + 1 = (pywords command).length)) ∧
    ((validate_command db command).valid = false →
      validate_command db command = structuralFailVerdict
        (((likeQuery db ((p0 ++ " " ++ p1) ++ "%")).map (fun c => c.path)).take 3)) := by
  rw [validate_placeholder_branch db command p0 p1 prest hstrip hne hph hexact hbase]
  exact structuralSearch_spec db command (p0 ++ " " ++ p1)

/-- A signature one token longer than the placeholder probe below. -/
def sigTraceAddFilterX : VPPCommand :=
  ⟨"trace add filter x", "trace filtering", "trace_fn", "vlib/trace.c", "other"⟩

/-- C3 (counterexample): the candidate is one token longer than the
input (4 against 3), which the claimed symmetric tolerance accepts, yet
the code rejects it and reports reason `Command structure with
placeholder not found in database`, not `placeholder structure not
found`. -/
theorem structural_tolerance_cex :
    validate_command [sigTraceAddFilterX] "trace add <x>"
        = structuralFailVerdict ["trace add filter x"] ∧
      (pywords "trace add <x>").length = 3 ∧ (pywords "trace add filter x").length = 4 := by
  refine ⟨by decide, by decide, by decide⟩

/-- A signature with the same token count as the placeholder probe. -/
def sigTraceAddFilter : VPPCommand :=
  ⟨"trace add filter", "trace filtering", "trace_fn", "vlib/trace.c", "other"⟩

/-- C3 (witness): the amended characterization applied to a concrete
accepting instance. -/
theorem structural_match_spec_witness :
    (validate_command [sigTraceAddFilter] "trace add <node>").valid = true := by
  have h := structural_match_spec [sigTraceAddFilter] "trace add <node>" "trace" "add" []
    (by decide) (by decide) (by decide) (by decide) (by decide)
  exact h.1.mpr ⟨sigTraceAddFilter, by decide, by decide, by decide⟩

/-! C4: the completion catalog of the spec example. -/

def sigShowInterfaceAddr : VPPCommand :=
  ⟨"show interface address", "display interface addresses", "show_addr_fn",
    "vnet/interface_cli.c", "interfaces"⟩

def sigShowIpFib : VPPCommand :=
  ⟨"show ip fib", "display the ip forwarding table", "show_fib_fn",
    "vnet/ip/lookup.c", "routing"⟩

def completionCatalog : List VPPCommand := [sigShowInterface, sigShowInterfaceAddr, sigShowIpFib]

/-- C4 (divergence witnessed on the code): with the three-signature
catalog and no live completions, completing `show` does yield
`interface` and `ip`, but completing `show interface a` yields nothing —
not `address` — because catalog matching only fires at full-token
boundaries and the fallback only emits tokens strictly beyond the
partial length. -/
theorem completion_fragment_divergence :
    get_vpp_completions completionCatalog "show" = ["interface", "ip"] ∧
      get_vpp_completions completionCatalog "show interface a" = [] := by
  refine ⟨by decide, by decide⟩

/-! C5: the known-hallucination table. -/

/-- The table hit produced for the placeholder trace-add forms. -/
def halluTraceHit : HallucinationHit :=
  ⟨"trace add <interface[^>]*>", "trace add <input-graph-node>",
    "trace add requires input-graph-node, not interface name"⟩

theorem scanLoop_mem_hallu (db : List VPPCommand) :
    ∀ (l : List String) (cmd : String) (hit : HallucinationHit), cmd ∈ l →
      check_known_hallucination cmd = some hit →
      cmd ∈ (scanLoop db l).2.1 ∧ (cmd, hit) ∈ (scanLoop db l).2.2.2 := by
  intro l
  induction l with
  | nil => intro cmd hit h _; simp at h
  | cons c l ih =>
    intro cmd hit hmem hchk
    rw [scanLoop]
    rcases List.mem_cons.mp hmem with rfl | hmem2
    · rw [hchk]
      exact ⟨List.mem_cons_self _ _, List.mem_cons_self _ _⟩
    · have ihh := ih cmd hit hmem2 hchk
      cases hc : check_known_hallucination c with
      | some hit2 =>
        exact ⟨List.mem_cons_of_mem _ ihh.1, List.mem_cons_of_mem _ ihh.2⟩
      | none =>
        by_cases hv : (validate_command db c).valid = true
        · simp only [hv, if_true]
          exact ⟨ihh.1, ihh.2⟩
        · simp only [Bool.not_eq_true] at hv
          simp only [hv, Bool.false_eq_true, if_false]
          refine ⟨List.mem_cons_of_mem _ ihh.1, ihh.2⟩

/-- C5 (amended): a candidate matching a known-hallucination regex — the
placeholder form `trace add <interface_name>` — is classified invalid
through the table, recorded under `known_hallucinations` with
correctedForm `trace add <input-graph-node>`, for every catalog alike
(no catalog lookup decides it); the concrete-interface form
`trace add eth0` matches no table pattern and goes to catalog
validation instead. -/
theorem hallu_table_spec (db : List VPPCommand) (text : String)
    (h : "trace add <interface_name>" ∈ extract_commands_from_text text) :
    "trace add <interface_name>" ∈ (validate_ai_response db text).invalid_commands ∧
      ("trace add <interface_name>", halluTraceHit)
        ∈ (validate_ai_response db text).known_hallucinations ∧
      halluTraceHit.correct = "trace add <input-graph-node>" ∧
      check_known_hallucination "trace add eth0" = none := by
  have hchk : check_known_hallucination "trace add <interface_name>" = some halluTraceHit := by
    decide
  have hm := scanLoop_mem_hallu db (extract_commands_from_text text) _ _ h hchk
  exact ⟨hm.1, hm.2, rfl, by decide⟩

/-- C5 (witness): the amended theorem applied to a concrete prose text
containing the backquoted placeholder form. -/
theorem hallu_table_spec_witness :
    "trace add <interface_name>" ∈
        extract_commands_from_text "run `trace add <interface_name>` now" ∧
      ("trace add <interface_name>", halluTraceHit)
        ∈ (validate_ai_response [] "run `trace add <interface_name>` now").known_hallucinations := by
  refine ⟨by decide, (hallu_table_spec [] "run `trace add <interface_name>` now" (by decide)).2.1⟩

/-- C5 (counterexample): `trace add eth0` is extracted from the prose
but no table pattern matches it: the scan classifies it invalid through
the catalog (here empty), with an empty `known_hallucinations` map and
no corrected form, against the claimed table classification. -/
theorem hallu_eth0_cex :
    extract_commands_from_text "use `trace add eth0` now" = ["trace add eth0"] ∧
      check_known_hallucination "trace add eth0" = none ∧
      (validate_ai_response [] "use `trace add eth0` now").known_hallucinations = [] ∧
      (validate_ai_response [] "use `trace add eth0` now").invalid_commands
        = ["trace add eth0"] ∧
      (validate_ai_response [] "use `trace add eth0` now").suggestions = [] := by
  refine ⟨by decide, by decide, by decide, by decide, by decide⟩

/-! C9: the confidence aggregate. -/

theorem scanLoop_valid_filter (db : List VPPCommand) :
    ∀ l : List String, (scanLoop db l).1 =
      l.filter (fun c => (check_known_hallucination c).isNone && (validate_command db c).valid) := by
  intro l
  induction l with
  | nil => rfl
  | cons c l ih =>
    rw [scanLoop]
    cases hc : check_known_hallucination c with
    | some hit => simp [List.filter_cons, hc, ih]
    | none =>
      by_cases hv : (validate_command db c).valid = true
      · simp [List.filter_cons, hc, hv, ih]
      · simp only [Bool.not_eq_true] at hv
        simp [List.filter_cons, hc, hv, ih]

theorem scanLoop_invalid_filter (db : List VPPCommand) :
    ∀ l : List String, (scanLoop db l).2.1 =
      l.filter (fun c =>
        !((check_known_hallucination c).isNone && (validate_command db c).valid)) := by
  intro l
  induction l with
  | nil => rfl
  | cons c l ih =>
    rw [scanLoop]
    cases hc : check_known_hallucination c with
    | some hit => simp [List.filter_cons, hc, ih]
    | none =>
      by_cases hv : (validate_command db c).valid = true
      · simp [List.filter_cons, hc, hv, ih]
      · simp only [Bool.not_eq_true] at hv
        simp [List.filter_cons, hc, hv, ih]

theorem finalDedup_nodup :
    ∀ (l seen : List String),
      (finalDedup l seen).Nodup ∧ ∀ x ∈ finalDedup l seen, seen.contains x = false := by
  intro l
  induction l with
  | nil => intro seen; simp [finalDedup]
  | cons c0 rest ih =>
    intro seen
    rw [finalDedup]
    by_cases hcond : (pyStrip c0 ≠ "" ∧ seen.contains (pyStrip c0) = false ∧
        1 ≤ (pywords (pyStrip c0)).length)
    · rw [if_pos hcond]
      obtain ⟨hn, hns⟩ := ih (pyStrip c0 :: seen)
      constructor
      · refine List.nodup_cons.mpr ⟨fun hmem => ?_, hn⟩
        have := hns _ hmem
        simp at this
      · intro x hx
        rcases List.mem_cons.mp hx with rfl | hx2
        · exact hcond.2.1
        · have := hns x hx2
          simp only [List.contains_cons, Bool.or_eq_false_iff] at this
          exact this.2
    · rw [if_neg hcond]
      exact ih seen

theorem dedupGo_eq_self :
    ∀ (l seen : List String), l.Nodup → (∀ x ∈ l, seen.contains x = false) →
      dedupGo l seen = l := by
  intro l
  induction l with
  | nil => intro seen _ _; rfl
  | cons x xs ih =>
    intro seen hnd hseen
    rw [dedupGo, hseen x (List.mem_cons_self _ _)]
    simp only [Bool.false_eq_true, if_false]
    rw [ih (x :: seen) (List.nodup_cons.mp hnd).2]
    intro y hy
    simp only [List.contains_cons, Bool.or_eq_false_iff]
    constructor
    · have : y ≠ x := fun hyx => (List.nodup_cons.mp hnd).1 (hyx ▸ hy)
      simpa using this
    · exact hseen y (List.mem_cons_of_mem _ hy)

theorem dedupKeepOrder_eq_self {l : List String} (h : l.Nodup) : dedupKeepOrder l = l :=
  dedupGo_eq_self l [] h (by simp)

/-- C9: when candidates were extracted, the confidence equals the number
of valid candidates divided by the size of the union of the valid and
invalid candidate sets; with no extractable candidates, the confidence
is exactly 1 and the valid and invalid sets are empty. -/
theorem scan_confidence_spec (db : List VPPCommand) (text : String) :
    (extract_commands_from_text text ≠ [] →
      (validate_ai_response db text).confidence =
        ((validate_ai_response db text).valid_commands.length : Rat) /
          ((dedupKeepOrder ((validate_ai_response db text).valid_commands
            ++ (validate_ai_response db text).invalid_commands)).length : Rat)) ∧
    (extract_commands_from_text text = [] →
      (validate_ai_response db text).confidence = 1 ∧
        (validate_ai_response db text).valid_commands = [] ∧
        (validate_ai_response db text).invalid_commands = []) := by
  have hvc : (validate_ai_response db text).valid_commands
      = (scanLoop db (extract_commands_from_text text)).1 := rfl
  have hic : (validate_ai_response db text).invalid_commands
      = (scanLoop db (extract_commands_from_text text)).2.1 := rfl
  have hnd : (extract_commands_from_text text).Nodup := by
    rw [extract_commands_from_text]
    exact (finalDedup_nodup _ []).1
  have hfv := scanLoop_valid_filter db (extract_commands_from_text text)
  have hfi := scanLoop_invalid_filter db (extract_commands_from_text text)
  constructor
  · intro hne
    have hconf : (validate_ai_response db text).confidence =
        ((scanLoop db (extract_commands_from_text text)).1.length : Rat)
          / ((extract_commands_from_text text).length : Rat) := by
      show (if extract_commands_from_text text ≠ [] then _ else _) = _
      rw [if_pos hne]
    have happ : ((scanLoop db (extract_commands_from_text text)).1 ++
        (scanLoop db (extract_commands_from_text text)).2.1).Nodup := by
      rw [hfv, hfi]
      refine (hnd.filter _).append (hnd.filter _) ?_
      intro a ha hb
      have h1 := (List.mem_filter.mp ha).2
      have h2 := (List.mem_filter.mp hb).2
      rw [h1] at h2
      simp at h2
    have hlen : (scanLoop db (extract_commands_from_text text)).1.length +
        (scanLoop db (extract_commands_from_text text)).2.1.length =
        (extract_commands_from_text text).length := by
      rw [hfv, hfi]
      exact (List.length_eq_length_filter_add _).symm
    rw [hconf, hvc, hic, dedupKeepOrder_eq_self happ, List.length_append, hlen]
  · intro hemp
    refine ⟨?_, ?_, ?_⟩
    · show (if extract_commands_from_text text ≠ [] then _ else _) = _
      rw [if_neg (by simp [hemp])]
    · rw [hvc, hemp]; rfl
    · rw [hic, hemp]; rfl

/-- C9 (witness): the confidence formula applied at a concrete text with
one extracted valid candidate. -/
theorem scan_confidence_spec_witness :
    extract_commands_from_text "run `show interface` please" ≠ [] ∧
      (validate_ai_response [sigShowInterface] "run `show interface` please").confidence =
        (((validate_ai_response [sigShowInterface]
            "run `show interface` please").valid_commands.length : Rat) /
          ((dedupKeepOrder ((validate_ai_response [sigShowInterface]
              "run `show interface` please").valid_commands
            ++ (validate_ai_response [sigShowInterface]
              "run `show interface` please").invalid_commands)).length : Rat)) := by
  refine ⟨by decide, (scan_confidence_spec [sigShowInterface] _).1 (by decide)⟩

/-! C10: verdict shapes. -/

theorem fuzzyStep_shape {db : List VPPCommand} {cmd : String} {v : Verdict}
    (h : fuzzyStep db cmd = some v) : ∃ m, v = similarVerdict m := by
  rcases fuzzyStep_accept_spec db cmd v h with ⟨m, _, hv, _, _⟩
  exact ⟨m, hv⟩

theorem structuralSearch_shape (db : List VPPCommand) (command base_cmd : String) :
    (∃ m, structuralSearch db command base_cmd = similarVerdict m) ∨
      ∃ l, structuralSearch db command base_cmd = structuralFailVerdict l := by
  rw [structuralSearch]
  cases hf : (likeQuery db (base_cmd ++ "%")).find? (structAccept command base_cmd) with
  | some m => exact Or.inl ⟨m, rfl⟩
  | none => exact Or.inr ⟨_, rfl⟩

theorem placeholderStep_shape {db : List VPPCommand} {command cwp : String} {v : Verdict}
    (h : placeholderStep db command cwp = some v) :
    (∃ m, v = similarVerdict m) ∨ ∃ l, v = structuralFailVerdict l := by
  rw [placeholderStep] at h
  rcases hb : pywords (pyStrip (String.mk (beforeFirst "<placeholder>".data cwp.data)))
    with _ | ⟨p0, _ | ⟨p1, prest⟩⟩ <;> rw [hb] at h
  · exact absurd h (by simp)
  · exact absurd h (by simp)
  · cases h
    rcases structuralSearch_shape db command (p0 ++ " " ++ p1) with ⟨m, hm⟩ | ⟨l, hl⟩
    · exact Or.inl ⟨m, hm⟩
    · exact Or.inr ⟨l, hl⟩

theorem postPlaceholder_shape (db : List VPPCommand) (command : String) :
    (∃ m, postPlaceholder db command = normalizedVerdict m) ∨
      (∃ m, postPlaceholder db command = similarVerdict m) ∨
      ∃ l, postPlaceholder db command = noMatchVerdict l := by
  rw [postPlaceholder]
  cases hE : exactLookup db (normalize_command command) with
  | some row => exact Or.inl ⟨row, rfl⟩
  | none =>
    cases hF : fuzzyStep db command with
    | some v =>
      rcases fuzzyStep_shape hF with ⟨m, rfl⟩
      exact Or.inr (Or.inl ⟨m, rfl⟩)
    | none => exact Or.inr (Or.inr ⟨_, rfl⟩)

theorem validate_command_empty {db : List VPPCommand} {cmd0 : String}
    (h0 : pyStrip cmd0 = "") : validate_command db cmd0 = emptyVerdict := by
  rw [validate_command]
  simp [h0]

theorem validate_command_exact_hit {db : List VPPCommand} {cmd0 : String} {row : VPPCommand}
    (h0 : ¬ pyStrip cmd0 = "") (hE : exactLookup db (pyStrip cmd0) = some row) :
    validate_command db cmd0 = exactVerdict row := by
  rw [validate_command, if_neg h0, hE]

theorem validate_command_ph {db : List VPPCommand} {cmd0 : String}
    (h0 : ¬ pyStrip cmd0 = "") (hE : exactLookup db (pyStrip cmd0) = none)
    (hph : (isSubstrL "<placeholder>".data (replacePlaceholders (pyStrip cmd0)).data
      || (pyStrip cmd0).data.contains '<') = true) :
    validate_command db cmd0 =
      match placeholderStep db (pyStrip cmd0) (replacePlaceholders (pyStrip cmd0)) with
      | some v => v
      | none => postPlaceholder db (pyStrip cmd0) := by
  rw [validate_command, if_neg h0, hE]
  show (if (isSubstrL "<placeholder>".data (replacePlaceholders (pyStrip cmd0)).data
      || (pyStrip cmd0).data.contains '<') = true then _ else _) = _
  rw [hph]
  simp

theorem validate_command_noph {db : List VPPCommand} {cmd0 : String}
    (h0 : ¬ pyStrip cmd0 = "") (hE : exactLookup db (pyStrip cmd0) = none)
    (hph : (isSubstrL "<placeholder>".data (replacePlaceholders (pyStrip cmd0)).data
      || (pyStrip cmd0).data.contains '<') = false) :
    validate_command db cmd0 = postPlaceholder db (pyStrip cmd0) := by
  rw [validate_command, if_neg h0, hE]
  show (if (isSubstrL "<placeholder>".data (replacePlaceholders (pyStrip cmd0)).data
      || (pyStrip cmd0).data.contains '<') = true then _ else _) = _
  rw [hph]
  simp

theorem validate_command_shape (db : List VPPCommand) (cmd0 : String) :
    validate_command db cmd0 = emptyVerdict ∨
      (∃ m, validate_command db cmd0 = exactVerdict m) ∨
      (∃ m, validate_command db cmd0 = similarVerdict m) ∨
      (∃ m, validate_command db cmd0 = normalizedVerdict m) ∨
      (∃ l, validate_command db cmd0 = structuralFailVerdict l) ∨
      ∃ l, validate_command db cmd0 = noMatchVerdict l := by
  by_cases h0 : pyStrip cmd0 = ""
  · exact Or.inl (validate_command_empty h0)
  · cases hE : exactLookup db (pyStrip cmd0) with
    | some row => exact Or.inr (Or.inl ⟨row, validate_command_exact_hit h0 hE⟩)
    | none =>
      have hpost := postPlaceholder_shape db (pyStrip cmd0)
      cases hph : (isSubstrL "<placeholder>".data
          (replacePlaceholders (pyStrip cmd0)).data
            || (pyStrip cmd0).data.contains '<') with
      | true =>
        have hred := validate_command_ph h0 hE hph
        cases hP : placeholderStep db (pyStrip cmd0) (replacePlaceholders (pyStrip cmd0)) with
        | some v =>
          rw [hP] at hred
          rcases placeholderStep_shape hP with ⟨m, rfl⟩ | ⟨l, rfl⟩
          · exact Or.inr (Or.inr (Or.inl ⟨m, hred⟩))
          · exact Or.inr (Or.inr (Or.inr (Or.inr (Or.inl ⟨l, hred⟩))))
        | none =>
          rw [hP] at hred
          rcases hpost with ⟨m, hm⟩ | ⟨m, hm⟩ | ⟨l, hl⟩
          · exact Or.inr (Or.inr (Or.inr (Or.inl ⟨m, hred.trans hm⟩)))
          · exact Or.inr (Or.inr (Or.inl ⟨m, hred.trans hm⟩))
          · exact Or.inr (Or.inr (Or.inr (Or.inr (Or.inr ⟨l, hred.trans hl⟩))))
      | false =>
        have hred := validate_command_noph h0 hE hph
        rcases hpost with ⟨m, hm⟩ | ⟨m, hm⟩ | ⟨l, hl⟩
        · exact Or.inr (Or.inr (Or.inr (Or.inl ⟨m, hred.trans hm⟩)))
        · exact Or.inr (Or.inr (Or.inl ⟨m, hred.trans hm⟩))
        · exact Or.inr (Or.inr (Or.inr (Or.inr (Or.inr ⟨l, hred.trans hl⟩))))

/-- C10: every verdict carries `valid`; a valid verdict carries `path`,
`help` and `category` and no `suggestions` or `reason`; an invalid
verdict carries `suggestions`; a `reason` appears only with the
empty-command and placeholder-failure messages (the generic no-match
verdict carries suggestions but no reason). -/
theorem validate_verdict_keys (db : List VPPCommand) (cmd0 : String) :
    ((validate_command db cmd0).valid = true →
      (validate_command db cmd0).path.isSome = true ∧
        (validate_command db cmd0).help.isSome = true ∧
        (validate_command db cmd0).category.isSome = true ∧
        (validate_command db cmd0).suggestions = none ∧
        (validate_command db cmd0).reason = none) ∧
    ((validate_command db cmd0).valid = false →
      (validate_command db cmd0).suggestions.isSome = true) ∧
    ((validate_command db cmd0).reason.isSome = true →
      (validate_command db cmd0).valid = false ∧
        ((validate_command db cmd0).reason = some "Empty command" ∨
          (validate_command db cmd0).reason
            = some "Command structure with placeholder not found in database")) := by
  rcases validate_command_shape db cmd0 with
    h | ⟨m, h⟩ | ⟨m, h⟩ | ⟨m, h⟩ | ⟨l, h⟩ | ⟨l, h⟩ <;> rw [h]
  · exact ⟨fun hv => by simp [emptyVerdict] at hv, fun _ => rfl, fun _ => ⟨rfl, Or.inl rfl⟩⟩
  · exact ⟨fun _ => ⟨rfl, rfl, rfl, rfl, rfl⟩,
      fun hv => by simp [exactVerdict] at hv, fun hr => by simp [exactVerdict] at hr⟩
  · exact ⟨fun _ => ⟨rfl, rfl, rfl, rfl, rfl⟩,
      fun hv => by simp [similarVerdict] at hv, fun hr => by simp [similarVerdict] at hr⟩
  · exact ⟨fun _ => ⟨rfl, rfl, rfl, rfl, rfl⟩,
      fun hv => by simp [normalizedVerdict] at hv, fun hr => by simp [normalizedVerdict] at hr⟩
  · exact ⟨fun hv => by simp [structuralFailVerdict] at hv, fun _ => rfl,
      fun _ => ⟨rfl, Or.inr rfl⟩⟩
  · exact ⟨fun hv => by simp [noMatchVerdict] at hv, fun _ => rfl,
      fun hr => by simp [noMatchVerdict] at hr⟩

/-- C10 (witness): the key invariants applied to a concrete valid and a
concrete invalid verdict. -/
theorem validate_verdict_keys_witness :
    ((validate_command [sigShowInterface] "show interface").path.isSome = true ∧
      (validate_command [sigShowInterface] "show interface").suggestions = none) ∧
      (validate_command [sigShowInterface] "").suggestions.isSome = true := by
  have h1 := (validate_verdict_keys [sigShowInterface] "show interface").1 (by decide)
  have h2 := (validate_verdict_keys [sigShowInterface] "").2.1 (by decide)
  exact ⟨⟨h1.1, h1.2.2.2.1⟩, h2⟩

end VppctlAI
